import Mathlib

/-!
# Verification of the maritime_weather route-planning core

Shallow embedding of the routing core of the `maritime_weather` repository:

* `src/routing/pathfinder.py` — risk zones, node risk (`calculate_risk`),
  complete mesh construction (`create_route_network`) and `find_path`;
* `src/routing/graph.py` — `haversine_km` and `build_graph`;
* `src/routing/pathfinding.py` — `safest_path` / `recommended_path`.

Machine floats are modelled as exact elements of a linear ordered field
(`ℚ` for executable instances, `ℝ` for the trigonometric haversine
formula).  The external geodesic distance of `geopy` is an injected
dependency of `pathfinder.py` and is modelled as an explicit function
parameter `gdist`.  The external `networkx.shortest_path` is modelled by
its contract: a deterministic choice of a minimum-weight simple path,
implemented by exhaustive enumeration of simple paths.
-/

namespace MaritimeWeather

/-! ## Generic path machinery (model of `networkx.shortest_path`) -/

section PathMachinery

variable {α : Type} [LinearOrderedField α]

/-- Total weight of a walk, as the sum of the weights of its consecutive
pairs of nodes. -/
def pathCost (w : ℕ → ℕ → α) : List ℕ → α
  | a :: b :: rest => w a b + pathCost w (b :: rest)
  | _ => 0

/-- All simple paths from `c` to `t` in the graph whose nodes are drawn from
`pool` and whose adjacency is `adj`, avoiding `visited`, with recursion
bounded by `fuel`. -/
def extendPaths (pool : List ℕ) (adj : ℕ → ℕ → Bool) (t : ℕ) :
    ℕ → List ℕ → ℕ → List (List ℕ)
  | 0, _, _ => []
  | fuel + 1, visited, c =>
    if c = t then [[c]]
    else
      (pool.filter (fun m => adj c m && ! decide (m ∈ visited) && ! decide (m = c))).flatMap
        (fun m => (extendPaths pool adj t fuel (c :: visited) m).map (fun p => c :: p))

/-- First element of minimum `pathCost` in a list of candidate paths. -/
def bestPath (w : ℕ → ℕ → α) : List (List ℕ) → Option (List ℕ)
  | [] => none
  | p :: ps =>
    some (ps.foldl (fun best q => if pathCost w q < pathCost w best then q else best) p)

/-- Model of `networkx.shortest_path` on an undirected graph with node pool
`pool`, adjacency `adj` and edge weight `w`: a minimum-weight simple path
from `s` to `t`, or `none` when there is none. -/
def nx_shortest_path (pool : List ℕ) (adj : ℕ → ℕ → Bool) (w : ℕ → ℕ → α)
    (s t : ℕ) : Option (List ℕ) :=
  bestPath w (extendPaths pool adj t (pool.length + 1) [] s)

end PathMachinery

/-! ## Embedding of `src/routing/pathfinder.py` -/

section PathFinder

variable {α : Type} [LinearOrderedField α]

/-- A risk zone of `MaritimePathFinder._initialize_risk_zones`: a dict with
keys `coordinates`, `radius`, `risk_level`. -/
structure RiskZone (α : Type) where
  center : α × α
  radius : α
  risk_level : α
  deriving DecidableEq

/-- The fixed zones returned by `_initialize_risk_zones`. -/
def risk_zones : List (RiskZone α) :=
  [⟨(20, -40), 500, 4 / 5⟩, ⟨(10, -20), 300, 3 / 5⟩, ⟨(30, -60), 400, 7 / 10⟩]

/-- `MaritimePathFinder.calculate_risk`: fold over the risk zones, keeping
the maximum contribution of the zones the point lies strictly inside, then
cap at `1.0`. -/
def calculate_risk (gdist : α × α → α × α → α) (point : α × α) : α :=
  min
    (risk_zones.foldl
      (fun total_risk zone =>
        let distance := gdist point zone.center
        if distance < zone.radius then
          max total_risk (zone.risk_level * (1 - (distance / zone.radius) ^ 2))
        else total_risk)
      0)
    1

/-- A node of the route network, with the attributes stored by
`create_route_network` (`pos`, `risk`, `lat`, `lon`). -/
structure NodeData (α : Type) where
  idx : ℕ
  pos : α × α
  risk : α
  lat : α
  lon : α
  deriving DecidableEq

/-- An edge of the route network, with the attributes stored by
`create_route_network`. -/
structure EdgeData (α : Type) where
  i : ℕ
  j : ℕ
  distance : α
  risk : α
  fastest : α
  safest : α
  recommended : α
  deriving DecidableEq

/-- The route network: nodes plus undirected edges. -/
structure RouteGraph (α : Type) where
  nodes : List (NodeData α)
  edges : List (EdgeData α)
  deriving DecidableEq

/-- Default node used for out-of-range lookups. -/
def dNode : NodeData α := ⟨0, (0, 0), 0, 0, 0⟩

/-- The node added for index `i` and point `p = (lat, lon)`:
`add_node(i, pos=(lon, lat), risk=risk, lat=lat, lon=lon)`. -/
def node_of (gdist : α × α → α × α → α) (i : ℕ) (p : α × α) : NodeData α :=
  ⟨i, (p.2, p.1), calculate_risk gdist p, p.1, p.2⟩

/-- The node list built by the first loop of `create_route_network`. -/
def nodes_of (gdist : α × α → α × α → α) (points : List (α × α)) : List (NodeData α) :=
  points.enum.map (fun q => node_of gdist q.1 q.2)

/-- The edge added for the pair `i < j` by the second loop of
`create_route_network`: distance from the external geodesic, risk as the
average of the two endpoint risks, and the three cost attributes. -/
def edge_of (gdist : α × α → α × α → α) (points : List (α × α)) (i j : ℕ) : EdgeData α :=
  let distance := gdist (points.getD i (0, 0)) (points.getD j (0, 0))
  let risk := (((nodes_of gdist points).getD i dNode).risk +
      ((nodes_of gdist points).getD j dNode).risk) / 2
  ⟨i, j, distance, risk, distance, distance * (1 + risk * 5), distance * (1 + risk)⟩

/-- `MaritimePathFinder.create_route_network`: one node per point, one edge
per pair `i < j`. -/
def create_route_network (gdist : α × α → α × α → α) (points : List (α × α)) :
    RouteGraph α :=
  ⟨nodes_of gdist points,
    (List.range points.length).flatMap (fun i =>
      ((List.range points.length).filter (fun j => i < j)).map (edge_of gdist points i))⟩

/-- `self.graph.edges[u, v]`: lookup of the undirected edge between `u` and
`v`. -/
def edge_lookup (g : RouteGraph α) (u v : ℕ) : Option (EdgeData α) :=
  g.edges.find? (fun e => (e.i == u && e.j == v) || (e.i == v && e.j == u))

/-- `weight_map.get(path_type, 'recommended')`: the three known modes map to
themselves, anything else falls back to `"recommended"`. -/
def weight_map_get (path_type : String) : String :=
  if path_type = "fastest" then "fastest"
  else if path_type = "safest" then "safest"
  else if path_type = "recommended" then "recommended"
  else "recommended"

/-- The stored cost attribute named `field` of an edge. -/
def edge_cost (field : String) (e : EdgeData α) : α :=
  if field = "fastest" then e.fastest
  else if field = "safest" then e.safest
  else e.recommended

/-- The weight function handed to the shortest-path search: the selected
cost attribute of the edge between two nodes. -/
def route_weight (g : RouteGraph α) (field : String) : ℕ → ℕ → α :=
  fun u v => ((edge_lookup g u v).map (edge_cost field)).getD 0

/-- The result dict of `find_path`. -/
structure RouteResult (α : Type) where
  path : List (α × α)
  distance_km : α
  average_risk : α
  waypoints : List (α × α)
  path_type : String
  node_path : List ℕ
  deriving DecidableEq

/-- `[start] + waypoints + [end]`. -/
def all_points (start end_ : α × α) (waypoints : List (α × α)) : List (α × α) :=
  [start] ++ waypoints ++ [end_]

/-- `MaritimePathFinder.find_path`: build the network over
`[start] + waypoints + [end]`, run the shortest-path search from node `0` to
node `n - 1` under the selected cost attribute, and either return the result
dict or fail like the `nx.NetworkXNoPath` handler. -/
def find_path (gdist : α × α → α × α → α) (start end_ : α × α)
    (waypoints : List (α × α)) (path_type : String) :
    Except String (RouteResult α) :=
  let points := all_points start end_ waypoints
  let g := create_route_network gdist points
  let field := weight_map_get path_type
  match nx_shortest_path (List.range points.length) (fun a b => a != b)
      (route_weight g field) 0 (points.length - 1) with
  | some node_path =>
    Except.ok
      ⟨node_path.map (fun i => points.getD i (0, 0)),
        ((node_path.zip node_path.tail).map
          (fun q => ((edge_lookup g q.1 q.2).map EdgeData.distance).getD 0)).sum,
        ((node_path.zip node_path.tail).map
          (fun q => ((edge_lookup g q.1 q.2).map EdgeData.risk).getD 0)).sum /
          ((max 1 (node_path.length - 1) : ℕ) : α),
        waypoints, path_type, node_path⟩
  | none => Except.error "No valid path found between the specified points"

/-- Node path of a `find_path` result (empty on error). -/
def nodePathOf (r : Except String (RouteResult α)) : List ℕ :=
  match r with
  | Except.ok x => x.node_path
  | Except.error _ => []

/-- A walk from `s` to `t` in the complete graph on nodes `0, …, n-1`:
nonempty, starts at `s`, ends at `t`, consecutive nodes adjacent (distinct),
all nodes in range. -/
def isWalk (n s t : ℕ) (p : List ℕ) : Prop :=
  p.head? = some s ∧ p.getLast? = some t ∧
    List.Chain' (fun a b => (a != b) = true) p ∧ ∀ x ∈ p, x < n

instance isWalk_decidable (n s t : ℕ) (p : List ℕ) : Decidable (isWalk n s t p) :=
  inferInstanceAs (Decidable (p.head? = some s ∧ p.getLast? = some t ∧
    List.Chain' (fun a b => (a != b) = true) p ∧ ∀ x ∈ p, x < n))

/-- Spec-side description (§4.1 of the design document) of the contribution
of a single risk zone to a point: `risk_level × (1 − (distance/radius)²)`
when the point is strictly inside the zone, and zero otherwise. -/
def zoneContribution (gdist : α × α → α × α → α) (p : α × α) (z : RiskZone α) : α :=
  if gdist p z.center < z.radius then
    z.risk_level * (1 - (gdist p z.center / z.radius) ^ 2)
  else 0

/-- Spec-side description (§4.1 of the design document) of a node's risk:
the maximum contribution over all risk zones, clamped to `[0, 1]`. -/
def specNodeRisk (gdist : α × α → α × α → α) (p : α × α) : α :=
  min 1 (max 0 ((risk_zones.map (zoneContribution gdist p)).foldr max 0))

end PathFinder

/-- A concrete executable stand-in for the injected geodesic distance, used
to instantiate the generic theorems on `ℚ`: a scaled taxicab distance in
degrees (about 111 km per degree). -/
def qdist (a b : ℚ × ℚ) : ℚ := 111 * (|a.1 - b.1| + |a.2 - b.2|)

/-! ## Embedding of `src/routing/graph.py` -/

section HaversineGraph

/-- `math.radians`. -/
noncomputable def radians (x : ℝ) : ℝ := x * Real.pi / 180

/-- `math.atan2`. -/
noncomputable def atan2 (y x : ℝ) : ℝ :=
  if 0 < x then Real.arctan (y / x)
  else if x < 0 ∧ 0 ≤ y then Real.arctan (y / x) + Real.pi
  else if x < 0 ∧ y < 0 then Real.arctan (y / x) - Real.pi
  else if x = 0 ∧ 0 < y then Real.pi / 2
  else if x = 0 ∧ y < 0 then -(Real.pi / 2)
  else 0

/-- `haversine_km` of `src/routing/graph.py`: great-circle distance via the
haversine formula with Earth radius `R = 6371.0` km. -/
noncomputable def haversine_km (a b : ℝ × ℝ) : ℝ :=
  let lat1 := a.1
  let lon1 := a.2
  let lat2 := b.1
  let lon2 := b.2
  let R : ℝ := 6371
  let dlat := radians (lat2 - lat1)
  let dlon := radians (lon2 - lon1)
  let x := Real.sin (dlat / 2) ^ 2 +
    Real.cos (radians lat1) * Real.cos (radians lat2) * Real.sin (dlon / 2) ^ 2
  2 * R * atan2 (Real.sqrt x) (Real.sqrt (1 - x))

/-- A `Port` dataclass of `src/routing/graph.py`. -/
structure Port where
  name : String
  coord : ℝ × ℝ

/-- Default port used for out-of-range lookups in statements. -/
def dPort : Port := ⟨"", (0, 0)⟩

/-- The graph produced by `build_graph`: nodes keyed by port name carrying a
`coord` attribute, and edges carrying a `distance` attribute. -/
structure PortGraph where
  nodes : List (String × (ℝ × ℝ))
  edges : List (String × String × ℝ)

/-- `graph.nodes[name]["coord"]`: attribute lookup by node name. -/
noncomputable def nodeCoord (nodes : List (String × (ℝ × ℝ))) (name : String) : ℝ × ℝ :=
  ((nodes.find? (fun q => q.1 == name)).map (fun q => q.2)).getD (0, 0)

/-- `build_graph` of `src/routing/graph.py`: one node per port, and for
every `i < j` one edge between `names[i]` and `names[j]` whose `distance` is
the haversine distance of the looked-up coordinates. -/
noncomputable def build_graph (ports : List Port) : PortGraph :=
  let nodes := ports.map (fun p => (p.name, p.coord))
  let names := ports.map (fun p => p.name)
  ⟨nodes,
    (List.range names.length).flatMap (fun i =>
      ((List.range names.length).filter (fun j => i < j)).map (fun j =>
        let a := names.getD i ""
        let b := names.getD j ""
        (a, b, haversine_km (nodeCoord nodes a) (nodeCoord nodes b))))⟩

end HaversineGraph

/-! ## Embedding of `src/routing/pathfinding.py`

Python objects are mutable; to express frame conditions we translate each
function into state-passing style: the function returns its value together
with the graph object the caller passed in, as the caller observes it after
the call.  `networkx.Graph.copy()` produces an independent copy (fresh
attribute dicts), which in a value semantics is the identity, so writes to
the copy never reach the argument. -/

section PathFinding

variable {α : Type} [LinearOrderedField α]

/-- The attribute dict of an edge as used by `src/routing/pathfinding.py`:
an optional `distance` (read with `data.get("distance", 1.0)`) and the two
derived cost keys the functions may set. -/
structure EdgeAttrs (α : Type) where
  distance : Option α
  risk_cost : Option α
  combo_cost : Option α

/-- A `networkx.Graph` as consumed by `src/routing/pathfinding.py`: named
nodes and undirected attributed edges. -/
structure Graph2 (α : Type) where
  nodes : List String
  edges : List (String × String × EdgeAttrs α)

/-- Attribute dict of the edge between two named nodes, if any. -/
def edgeBetween (g : Graph2 α) (a b : String) : Option (EdgeAttrs α) :=
  (g.edges.find? (fun e => (e.1 == a && e.2.1 == b) || (e.1 == b && e.2.1 == a))).map
    (fun e => e.2.2)

/-- Model of `nx.shortest_path(graph, start, end, weight=...)` on a named
graph: translate names to node indices, search, translate back.  A missing
weight attribute counts as `1`, following networkx. -/
def named_shortest_path (g : Graph2 α) (s t : String) (cost : EdgeAttrs α → α) :
    Option (List String) :=
  match g.nodes.findIdx? (fun x => x == s), g.nodes.findIdx? (fun x => x == t) with
  | some si, some ti =>
    (nx_shortest_path (List.range g.nodes.length)
        (fun a b => (edgeBetween g (g.nodes.getD a "") (g.nodes.getD b "")).isSome && a != b)
        (fun a b => ((edgeBetween g (g.nodes.getD a "") (g.nodes.getD b "")).map cost).getD 1)
        si ti).map (fun p => p.map (fun i => g.nodes.getD i ""))
  | _, _ => none

/-- `fastest_path`: plain shortest path by the `distance` attribute; the
caller's graph is returned as the caller observes it afterwards. -/
def fastest_path (graph : Graph2 α) (start end_ : String) :
    Option (List String) × Graph2 α :=
  (named_shortest_path graph start end_ (fun d => d.distance.getD 1), graph)

/-- The loop body of `safest_path`: `g = graph.copy()` then, for every edge,
`data["risk_cost"] = distance * (1.0 + risk)`. -/
def annotate_safest (graph : Graph2 α) (risk_func : String → String → EdgeAttrs α → α) :
    Graph2 α :=
  ⟨graph.nodes,
    graph.edges.map (fun e =>
      let distance := e.2.2.distance.getD 1
      let risk := risk_func e.1 e.2.1 e.2.2
      (e.1, e.2.1, ⟨e.2.2.distance, some (distance * (1 + risk)), e.2.2.combo_cost⟩))⟩

/-- `safest_path` of `src/routing/pathfinding.py`, in state-passing style:
annotates a copy with `risk_cost` and searches it; the second component is
the caller's graph after the call. -/
def safest_path (graph : Graph2 α) (start end_ : String)
    (risk_func : String → String → EdgeAttrs α → α) :
    Option (List String) × Graph2 α :=
  let g := annotate_safest graph risk_func
  (named_shortest_path g start end_ (fun d => d.risk_cost.getD 1), graph)

/-- The loop body of `recommended_path`: `g = graph.copy()` then, for every
edge, `data["combo_cost"] = alpha * distance + (1 - alpha) * distance * (1.0 + risk)`. -/
def annotate_recommended (graph : Graph2 α)
    (risk_func : String → String → EdgeAttrs α → α) (alpha : α) : Graph2 α :=
  ⟨graph.nodes,
    graph.edges.map (fun e =>
      let distance := e.2.2.distance.getD 1
      let risk := risk_func e.1 e.2.1 e.2.2
      (e.1, e.2.1, ⟨e.2.2.distance, e.2.2.risk_cost,
        some (alpha * distance + (1 - alpha) * distance * (1 + risk))⟩))⟩

/-- `recommended_path` of `src/routing/pathfinding.py`, in state-passing
style. -/
def recommended_path (graph : Graph2 α) (start end_ : String)
    (risk_func : String → String → EdgeAttrs α → α) (alpha : α) :
    Option (List String) × Graph2 α :=
  let g := annotate_recommended graph risk_func alpha
  (named_shortest_path g start end_ (fun d => d.combo_cost.getD 1), graph)

end PathFinding

/-! ## Lemmas about the path machinery -/

section PathLemmas

variable {α : Type} [LinearOrderedField α]

theorem pathCost_cons_cons (w : ℕ → ℕ → α) (a b : ℕ) (rest : List ℕ) :
    pathCost w (a :: b :: rest) = w a b + pathCost w (b :: rest) := rfl

theorem pathCost_nonneg (w : ℕ → ℕ → α) (hw : ∀ i j, 0 ≤ w i j) :
    ∀ p : List ℕ, 0 ≤ pathCost w p
  | [] => le_refl 0
  | [_] => le_refl 0
  | a :: b :: rest => by
    have h := pathCost_nonneg w hw (b :: rest)
    calc (0 : α) ≤ w a b + pathCost w (b :: rest) := add_nonneg (hw a b) h
    _ = pathCost w (a :: b :: rest) := (pathCost_cons_cons w a b rest).symm

theorem pathCost_append (w : ℕ → ℕ → α) (a : ℕ) (v : List ℕ) :
    ∀ u : List ℕ, pathCost w (u ++ a :: v) = pathCost w (u ++ [a]) + pathCost w (a :: v)
  | [] => by simp [pathCost]
  | [x] => by simp [pathCost]
  | x :: y :: u => by
    have ih := pathCost_append w a v (y :: u)
    simp only [List.cons_append] at ih ⊢
    rw [pathCost_cons_cons w x y (u ++ a :: v), pathCost_cons_cons w x y (u ++ [a]), ih,
      add_assoc]

theorem extendPaths_sound (pool : List ℕ) (adj : ℕ → ℕ → Bool) (t : ℕ) :
    ∀ (fuel : ℕ) (visited : List ℕ) (c : ℕ) (p : List ℕ),
      p ∈ extendPaths pool adj t fuel visited c →
      p.head? = some c ∧ p.getLast? = some t ∧
        List.Chain' (fun a b => adj a b = true) p ∧ p.Nodup ∧
        ∀ x ∈ p.tail, x ∈ pool ∧ x ∉ visited ∧ x ≠ c := by
  intro fuel
  induction fuel with
  | zero => intro visited c p hp; simp [extendPaths] at hp
  | succ fuel ih =>
    intro visited c p hp
    rw [extendPaths] at hp
    by_cases hct : c = t
    · rw [if_pos hct] at hp
      rw [List.mem_singleton] at hp
      subst hp
      subst hct
      exact ⟨rfl, rfl, List.chain'_singleton c, List.nodup_singleton c, by simp⟩
    · rw [if_neg hct] at hp
      rw [List.mem_flatMap] at hp
      obtain ⟨m, hm, hpm⟩ := hp
      rw [List.mem_map] at hpm
      obtain ⟨q, hq, rfl⟩ := hpm
      rw [List.mem_filter] at hm
      obtain ⟨hm_pool, hm_pred⟩ := hm
      have hadj : adj c m = true := by
        have := hm_pred
        simp only [Bool.and_eq_true] at this
        exact this.1.1
      have hm_vis : m ∉ visited := by
        have := hm_pred
        simp only [Bool.and_eq_true, Bool.not_eq_true', decide_eq_false_iff_not] at this
        exact this.1.2
      have hm_ne : m ≠ c := by
        have := hm_pred
        simp only [Bool.and_eq_true, Bool.not_eq_true', decide_eq_false_iff_not] at this
        exact this.2
      obtain ⟨ihh, ihl, ihc, ihn, iht⟩ := ih (c :: visited) m q hq
      obtain ⟨q', rfl⟩ : ∃ q', q = m :: q' := by
        cases q with
        | nil => simp at ihh
        | cons z q' => rw [List.head?_cons, Option.some_inj] at ihh; exact ⟨q', by rw [ihh]⟩
      refine ⟨rfl, ?_, ?_, ?_, ?_⟩
      · rw [List.getLast?_cons_cons]; exact ihl
      · rw [List.chain'_cons]; exact ⟨hadj, ihc⟩
      · rw [List.nodup_cons]
        refine ⟨?_, ihn⟩
        intro hc
        rcases List.mem_cons.mp hc with h | h
        · exact hm_ne h.symm
        · exact ((iht c h).2.1) (List.mem_cons_self c visited)
      · intro x hx
        rcases List.mem_cons.mp hx with rfl | hx
        · exact ⟨hm_pool, hm_vis, hm_ne⟩
        · obtain ⟨h1, h2, _⟩ := iht x hx
          exact ⟨h1, fun hv => h2 (List.mem_cons_of_mem c hv),
            fun he => h2 (he ▸ List.mem_cons_self c visited)⟩

theorem extendPaths_complete (pool : List ℕ) (adj : ℕ → ℕ → Bool) (t : ℕ) :
    ∀ (fuel : ℕ) (p : List ℕ) (visited : List ℕ) (c : ℕ),
      p.head? = some c → p.getLast? = some t →
      List.Chain' (fun a b => adj a b = true) p → p.Nodup →
      (∀ x ∈ p.tail, x ∈ pool) → (∀ x ∈ p, x ∉ visited) →
      p.length ≤ fuel → p ∈ extendPaths pool adj t fuel visited c := by
  intro fuel
  induction fuel with
  | zero =>
    intro p visited c hh _ _ _ _ _ hlen
    cases p with
    | nil => simp at hh
    | cons a q => simp at hlen
  | succ fuel ih =>
    intro p visited c hh hl hc hn hpool hvis hlen
    obtain ⟨q, rfl⟩ : ∃ q, p = c :: q := by
      cases p with
      | nil => simp at hh
      | cons z q => rw [List.head?_cons, Option.some_inj] at hh; exact ⟨q, by rw [hh]⟩
    rw [extendPaths]
    by_cases hct : c = t
    · rw [if_pos hct]
      obtain rfl : q = [] := by
        cases q with
        | nil => rfl
        | cons m q' =>
          exfalso
          rw [List.getLast?_cons_cons] at hl
          have hmem : t ∈ m :: q' := List.mem_of_mem_getLast? (by rw [hl]; exact rfl)
          rw [List.nodup_cons] at hn
          exact hn.1 (hct ▸ hmem)
      exact List.mem_singleton.mpr rfl
    · rw [if_neg hct]
      obtain ⟨m, q', rfl⟩ : ∃ m q', q = m :: q' := by
        cases q with
        | nil =>
          exfalso
          rw [List.getLast?_singleton, Option.some_inj] at hl
          exact hct hl
        | cons m q' => exact ⟨m, q', rfl⟩
      rw [List.mem_flatMap]
      refine ⟨m, ?_, ?_⟩
      · rw [List.mem_filter]
        refine ⟨hpool m (List.mem_cons_self m q'), ?_⟩
        have hadj : adj c m = true := (List.chain'_cons.mp hc).1
        have hmv : m ∉ visited := hvis m (List.mem_cons_of_mem c (List.mem_cons_self m q'))
        have hmc : m ≠ c := by
          rw [List.nodup_cons] at hn
          intro he; exact hn.1 (he ▸ List.mem_cons_self m q')
        simp [hadj, hmv, hmc]
      · rw [List.mem_map]
        refine ⟨m :: q', ?_, rfl⟩
        apply ih (m :: q') (c :: visited) m rfl
        · rw [List.getLast?_cons_cons] at hl; exact hl
        · exact (List.chain'_cons.mp hc).2
        · exact (List.nodup_cons.mp hn).2
        · intro x hx
          exact hpool x (List.mem_cons_of_mem m hx)
        · intro x hx
          rw [List.mem_cons]
          rintro (rfl | hv)
          · exact (List.nodup_cons.mp hn).1 hx
          · exact hvis x (List.mem_cons_of_mem c hx) hv
        · simpa using Nat.le_of_succ_le_succ hlen

theorem bestPath_foldl_spec (w : ℕ → ℕ → α) :
    ∀ (l : List (List ℕ)) (p0 : List ℕ),
      ((l.foldl (fun best q => if pathCost w q < pathCost w best then q else best) p0) = p0 ∨
        (l.foldl (fun best q => if pathCost w q < pathCost w best then q else best) p0) ∈ l) ∧
      pathCost w (l.foldl (fun best q => if pathCost w q < pathCost w best then q else best) p0) ≤
        pathCost w p0 ∧
      ∀ q ∈ l,
        pathCost w (l.foldl (fun best q => if pathCost w q < pathCost w best then q else best) p0) ≤
          pathCost w q := by
  intro l
  induction l with
  | nil => intro p0; exact ⟨Or.inl rfl, le_refl _, by simp⟩
  | cons q l ih =>
    intro p0
    rw [List.foldl_cons]
    obtain ⟨hmem, hle, hall⟩ := ih (if pathCost w q < pathCost w p0 then q else p0)
    have hle1 : pathCost w (if pathCost w q < pathCost w p0 then q else p0) ≤ pathCost w p0 := by
      by_cases h : pathCost w q < pathCost w p0
      · rw [if_pos h]; exact le_of_lt h
      · rw [if_neg h]
    have hleq : pathCost w (if pathCost w q < pathCost w p0 then q else p0) ≤ pathCost w q := by
      by_cases h : pathCost w q < pathCost w p0
      · rw [if_pos h]
      · rw [if_neg h]; exact le_of_not_lt h
    refine ⟨?_, le_trans hle hle1, ?_⟩
    · rcases hmem with h | h
      · rw [h]
        by_cases hq : pathCost w q < pathCost w p0
        · rw [if_pos hq]; exact Or.inr (List.mem_cons_self q l)
        · rw [if_neg hq]; exact Or.inl rfl
      · exact Or.inr (List.mem_cons_of_mem q h)
    · intro r hr
      rcases List.mem_cons.mp hr with rfl | hr
      · exact le_trans hle hleq
      · exact hall r hr

theorem bestPath_some_spec (w : ℕ → ℕ → α) (l : List (List ℕ)) (p : List ℕ)
    (h : bestPath w l = some p) : p ∈ l ∧ ∀ q ∈ l, pathCost w p ≤ pathCost w q := by
  cases l with
  | nil => simp [bestPath] at h
  | cons q0 l =>
    rw [bestPath, Option.some_inj] at h
    obtain ⟨hmem, hle, hall⟩ := bestPath_foldl_spec w l q0
    subst h
    constructor
    · rcases hmem with h | h
      · rw [h]; exact List.mem_cons_self q0 l
      · exact List.mem_cons_of_mem q0 h
    · intro q hq
      rcases List.mem_cons.mp hq with rfl | hq
      · exact hle
      · exact hall q hq

theorem bestPath_isSome (w : ℕ → ℕ → α) (l : List (List ℕ)) (h : l ≠ []) :
    ∃ p, bestPath w l = some p := by
  cases l with
  | nil => exact absurd rfl h
  | cons q0 l => exact ⟨_, rfl⟩

theorem exists_dup_split :
    ∀ l : List ℕ, ¬ l.Nodup → ∃ (a : ℕ) (xs ys zs : List ℕ), l = xs ++ a :: ys ++ a :: zs := by
  intro l
  induction l with
  | nil => intro h; exact absurd List.nodup_nil h
  | cons x tl ih =>
    intro h
    rw [List.nodup_cons] at h
    push_neg at h
    by_cases hx : x ∈ tl
    · obtain ⟨ys, zs, rfl⟩ := List.append_of_mem hx
      exact ⟨x, [], ys, zs, by simp⟩
    · obtain ⟨a, xs, ys, zs, rfl⟩ := ih (h hx)
      exact ⟨a, x :: xs, ys, zs, by simp⟩

theorem exists_nodup_walk (w : ℕ → ℕ → α) (adj : ℕ → ℕ → Bool) (s t : ℕ)
    (hw : ∀ i j, 0 ≤ w i j) :
    ∀ (N : ℕ) (p : List ℕ), p.length ≤ N →
      p.head? = some s → p.getLast? = some t →
      List.Chain' (fun a b => adj a b = true) p →
      ∃ q : List ℕ, q.head? = some s ∧ q.getLast? = some t ∧
        List.Chain' (fun a b => adj a b = true) q ∧ q.Nodup ∧ (∀ x ∈ q, x ∈ p) ∧
        pathCost w q ≤ pathCost w p := by
  intro N
  induction N with
  | zero =>
    intro p hlen hh _ _
    cases p with
    | nil => simp at hh
    | cons a q => simp at hlen
  | succ N ih =>
    intro p hlen hh hl hc
    by_cases hnd : p.Nodup
    · exact ⟨p, hh, hl, hc, hnd, fun x hx => hx, le_refl _⟩
    · obtain ⟨a, xs, ys, zs, rfl⟩ := exists_dup_split p hnd
      have hqh : (xs ++ a :: zs).head? = some s := by
        cases xs with
        | nil => simpa using hh
        | cons x xs' => simpa using hh
      have hql : (xs ++ a :: zs).getLast? = some t := by
        rw [List.getLast?_append_cons] at hl ⊢
        exact hl
      have hqc : List.Chain' (fun a b => adj a b = true) (xs ++ a :: zs) := by
        rw [List.chain'_append] at hc
        obtain ⟨hc1, hc2, _⟩ := hc
        rw [List.chain'_append] at hc1
        obtain ⟨hxs, _, hlink1⟩ := hc1
        rw [List.chain'_append]
        refine ⟨hxs, hc2, ?_⟩
        intro x hx y hy
        rw [List.head?_cons, Option.mem_def, Option.some_inj] at hy
        subst hy
        exact hlink1 x hx a (by simp)
      have hcost : pathCost w (xs ++ a :: zs) ≤ pathCost w (xs ++ a :: ys ++ a :: zs) := by
        rw [pathCost_append w a zs xs]
        rw [pathCost_append w a zs (xs ++ a :: ys)]
        have he : (xs ++ a :: ys) ++ [a] = xs ++ a :: (ys ++ [a]) := by simp
        rw [he, pathCost_append w a (ys ++ [a]) xs]
        have h0 : 0 ≤ pathCost w (a :: (ys ++ [a])) := pathCost_nonneg w hw _
        linarith
      have hlt : (xs ++ a :: zs).length < (xs ++ a :: ys ++ a :: zs).length := by
        simp only [List.length_append, List.length_cons]
        omega
      obtain ⟨q, h1, h2, h3, h4, h5, h6⟩ :=
        ih (xs ++ a :: zs) (by omega) hqh hql hqc
      refine ⟨q, h1, h2, h3, h4, ?_, le_trans h6 hcost⟩
      intro x hx
      have := h5 x hx
      simp only [List.mem_append, List.mem_cons] at this ⊢
      tauto

end PathLemmas

/-! ## Lemmas about the pathfinder embedding -/

section PathFinderLemmas

variable {α : Type} [LinearOrderedField α]

theorem nodes_of_length (gdist : α × α → α × α → α) (points : List (α × α)) :
    (nodes_of gdist points).length = points.length := by
  simp [nodes_of]

theorem nodes_of_getD (gdist : α × α → α × α → α) (points : List (α × α)) (i : ℕ)
    (hi : i < points.length) :
    (nodes_of gdist points).getD i dNode = node_of gdist i (points.getD i (0, 0)) := by
  have hlen : i < (nodes_of gdist points).length := by rwa [nodes_of_length]
  rw [List.getD_eq_getElem _ _ hlen]
  rw [List.getD_eq_getElem _ _ hi]
  simp [nodes_of, List.enum]

theorem risk_foldl_eq (gdist : α × α → α × α → α) (p : α × α) :
    ∀ (l : List (RiskZone α)) (a : α), 0 ≤ a →
      l.foldl
        (fun total_risk zone =>
          let distance := gdist p zone.center
          if distance < zone.radius then
            max total_risk (zone.risk_level * (1 - (distance / zone.radius) ^ 2))
          else total_risk) a
      = max a ((l.map (zoneContribution gdist p)).foldr max 0) := by
  intro l
  induction l with
  | nil => intro a ha; simp [max_eq_left ha]
  | cons z l ih =>
    intro a ha
    rw [List.foldl_cons, List.map_cons, List.foldr_cons]
    have hstep : (let distance := gdist p z.center
        if distance < z.radius then
          max a (z.risk_level * (1 - (distance / z.radius) ^ 2))
        else a) = max a (zoneContribution gdist p z) := by
      show (if gdist p z.center < z.radius then
          max a (z.risk_level * (1 - (gdist p z.center / z.radius) ^ 2)) else a) = _
      unfold zoneContribution
      by_cases h : gdist p z.center < z.radius
      · rw [if_pos h, if_pos h]
      · rw [if_neg h, if_neg h, max_eq_left ha]
    rw [hstep, ih _ (le_trans ha (le_max_left a _)), max_assoc]

theorem calculate_risk_eq_spec (gdist : α × α → α × α → α) (p : α × α) :
    calculate_risk gdist p = specNodeRisk gdist p := by
  unfold calculate_risk specNodeRisk
  rw [risk_foldl_eq gdist p risk_zones 0 (le_refl 0), min_comm]

theorem calculate_risk_nonneg (gdist : α × α → α × α → α) (p : α × α) :
    0 ≤ calculate_risk gdist p := by
  rw [calculate_risk_eq_spec]
  unfold specNodeRisk
  exact le_min zero_le_one (le_max_left 0 _)

theorem calculate_risk_le_one (gdist : α × α → α × α → α) (p : α × α) :
    calculate_risk gdist p ≤ 1 := by
  rw [calculate_risk_eq_spec]
  unfold specNodeRisk
  exact min_le_left 1 _

theorem le_foldr_max (f : RiskZone α → α) :
    ∀ l : List (RiskZone α), ∀ z ∈ l, f z ≤ (l.map f).foldr max 0
  | [], z => by intro hz; simp at hz
  | z' :: l, z => by
    intro hz
    rw [List.map_cons, List.foldr_cons]
    rcases List.mem_cons.mp hz with rfl | hz
    · exact le_max_left _ _
    · exact le_trans (le_foldr_max f l z hz) (le_max_right _ _)

theorem foldr_max_le (f : RiskZone α → α) (b : α) (hb : 0 ≤ b) :
    ∀ l : List (RiskZone α), (∀ z ∈ l, f z ≤ b) → (l.map f).foldr max 0 ≤ b
  | [] => fun _ => by simpa using hb
  | z :: l => fun h => by
    rw [List.map_cons, List.foldr_cons]
    exact max_le (h z (List.mem_cons_self z l))
      (foldr_max_le f b hb l (fun z' hz' => h z' (List.mem_cons_of_mem z hz')))

theorem mem_edges_iff (gdist : α × α → α × α → α) (points : List (α × α)) (e : EdgeData α) :
    e ∈ (create_route_network gdist points).edges ↔
      ∃ a b : ℕ, a < points.length ∧ b < points.length ∧ a < b ∧
        e = edge_of gdist points a b := by
  simp only [create_route_network, List.mem_flatMap, List.mem_map, List.mem_filter,
    List.mem_range, decide_eq_true_eq]
  constructor
  · rintro ⟨a, ha, b, ⟨hb, hab⟩, rfl⟩
    exact ⟨a, b, ha, hb, hab, rfl⟩
  · rintro ⟨a, b, ha, hb, hab, rfl⟩
    exact ⟨a, ha, b, ⟨hb, hab⟩, rfl⟩

theorem edge_of_fields (gdist : α × α → α × α → α) (points : List (α × α)) (a b : ℕ) :
    (edge_of gdist points a b).i = a ∧ (edge_of gdist points a b).j = b ∧
      (edge_of gdist points a b).distance =
        gdist (points.getD a (0, 0)) (points.getD b (0, 0)) ∧
      (edge_of gdist points a b).risk =
        (((nodes_of gdist points).getD a dNode).risk +
          ((nodes_of gdist points).getD b dNode).risk) / 2 ∧
      (edge_of gdist points a b).fastest = (edge_of gdist points a b).distance ∧
      (edge_of gdist points a b).safest =
        (edge_of gdist points a b).distance * (1 + (edge_of gdist points a b).risk * 5) ∧
      (edge_of gdist points a b).recommended =
        (edge_of gdist points a b).distance * (1 + (edge_of gdist points a b).risk) :=
  ⟨rfl, rfl, rfl, rfl, rfl, rfl, rfl⟩

theorem nodes_getD_risk_nonneg (gdist : α × α → α × α → α) (points : List (α × α)) (i : ℕ) :
    0 ≤ ((nodes_of gdist points).getD i dNode).risk := by
  by_cases hi : i < points.length
  · rw [nodes_of_getD gdist points i hi]
    show 0 ≤ calculate_risk gdist (points.getD i (0, 0))
    exact calculate_risk_nonneg gdist _
  · rw [List.getD_eq_default]
    · exact le_refl 0
    · rw [nodes_of_length]
      exact not_lt.mp hi

theorem nodes_getD_risk_le_one (gdist : α × α → α × α → α) (points : List (α × α)) (i : ℕ) :
    ((nodes_of gdist points).getD i dNode).risk ≤ 1 := by
  by_cases hi : i < points.length
  · rw [nodes_of_getD gdist points i hi]
    show calculate_risk gdist (points.getD i (0, 0)) ≤ 1
    exact calculate_risk_le_one gdist _
  · rw [List.getD_eq_default]
    · exact zero_le_one
    · rw [nodes_of_length]
      exact not_lt.mp hi

theorem edge_of_risk_nonneg (gdist : α × α → α × α → α) (points : List (α × α)) (a b : ℕ) :
    0 ≤ (edge_of gdist points a b).risk := by
  have h := (edge_of_fields gdist points a b).2.2.2.1
  rw [h]
  have h1 := nodes_getD_risk_nonneg gdist points a
  have h2 := nodes_getD_risk_nonneg gdist points b
  linarith

theorem find?_eq_some_of_unique {β : Type} (pred : β → Bool) (x : β) (hpx : pred x = true) :
    ∀ l : List β, (∀ y ∈ l, pred y = true → y = x) → x ∈ l → l.find? pred = some x
  | [], _, hx => by simp at hx
  | h :: t, hl, hx => by
    by_cases hph : pred h = true
    · rw [List.find?_cons_of_pos _ hph, hl h (List.mem_cons_self h t) hph]
    · rw [List.find?_cons_of_neg _ (by simpa using hph)]
      refine find?_eq_some_of_unique pred x hpx t
        (fun y hy hpy => hl y (List.mem_cons_of_mem h hy) hpy) ?_
      rcases List.mem_cons.mp hx with rfl | hx'
      · exact absurd hpx hph
      · exact hx'

theorem edge_lookup_eq (gdist : α × α → α × α → α) (points : List (α × α)) (a b : ℕ)
    (hab : a < b) (hb : b < points.length) :
    edge_lookup (create_route_network gdist points) a b =
        some (edge_of gdist points a b) ∧
      edge_lookup (create_route_network gdist points) b a =
        some (edge_of gdist points a b) := by
  have hmem : edge_of gdist points a b ∈ (create_route_network gdist points).edges := by
    rw [mem_edges_iff]
    exact ⟨a, b, lt_trans hab hb, hb, hab, rfl⟩
  have huniq : ∀ o1 o2 : ℕ, (o1 = a ∧ o2 = b) ∨ (o1 = b ∧ o2 = a) →
      ∀ y ∈ (create_route_network gdist points).edges,
        ((y.i == o1 && y.j == o2) || (y.i == o2 && y.j == o1)) = true →
          y = edge_of gdist points a b := by
    rintro o1 o2 ho y hy hpy
    rw [mem_edges_iff] at hy
    obtain ⟨c, d, hc, hd, hcd, rfl⟩ := hy
    have hci : (edge_of gdist points c d).i = c := (edge_of_fields gdist points c d).1
    have hdj : (edge_of gdist points c d).j = d := (edge_of_fields gdist points c d).2.1
    rw [hci, hdj] at hpy
    simp only [Bool.or_eq_true, Bool.and_eq_true, beq_iff_eq] at hpy
    rcases ho with ⟨rfl, rfl⟩ | ⟨rfl, rfl⟩
    · rcases hpy with ⟨rfl, rfl⟩ | ⟨rfl, rfl⟩
      · rfl
      · omega
    · rcases hpy with ⟨rfl, rfl⟩ | ⟨rfl, rfl⟩
      · omega
      · rfl
  constructor
  · apply find?_eq_some_of_unique _ _ ?_ _ (huniq a b (Or.inl ⟨rfl, rfl⟩)) hmem
    have hci : (edge_of gdist points a b).i = a := (edge_of_fields gdist points a b).1
    have hdj : (edge_of gdist points a b).j = b := (edge_of_fields gdist points a b).2.1
    rw [hci, hdj]
    simp
  · apply find?_eq_some_of_unique _ _ ?_ _ (huniq b a (Or.inr ⟨rfl, rfl⟩)) hmem
    have hci : (edge_of gdist points a b).i = a := (edge_of_fields gdist points a b).1
    have hdj : (edge_of gdist points a b).j = b := (edge_of_fields gdist points a b).2.1
    rw [hci, hdj]
    simp

theorem route_weight_nonneg (gdist : α × α → α × α → α) (points : List (α × α))
    (field : String) (h0 : ∀ a b : α × α, 0 ≤ gdist a b) (u v : ℕ) :
    0 ≤ route_weight (create_route_network gdist points) field u v := by
  unfold route_weight
  cases hfind : edge_lookup (create_route_network gdist points) u v with
  | none => simp
  | some e =>
    have hmem := List.mem_of_find?_eq_some hfind
    rw [mem_edges_iff] at hmem
    obtain ⟨a, b, _, _, _, rfl⟩ := hmem
    have hd : 0 ≤ (edge_of gdist points a b).distance := by
      rw [(edge_of_fields gdist points a b).2.2.1]
      exact h0 _ _
    have hr : 0 ≤ (edge_of gdist points a b).risk := edge_of_risk_nonneg gdist points a b
    simp only [Option.map_some', Option.getD_some]
    unfold edge_cost
    by_cases h1 : field = "fastest"
    · rw [if_pos h1, (edge_of_fields gdist points a b).2.2.2.2.1]
      exact hd
    · rw [if_neg h1]
      by_cases h2 : field = "safest"
      · rw [if_pos h2, (edge_of_fields gdist points a b).2.2.2.2.2.1]
        have : (0 : α) ≤ 1 + (edge_of gdist points a b).risk * 5 := by linarith
        exact mul_nonneg hd this
      · rw [if_neg h2, (edge_of_fields gdist points a b).2.2.2.2.2.2]
        have : (0 : α) ≤ 1 + (edge_of gdist points a b).risk := by linarith
        exact mul_nonneg hd this

end PathFinderLemmas

/-! ## The complete-graph search used by `find_path` -/

section CompleteGraphLemmas

variable {α : Type} [LinearOrderedField α]

theorem walk_nodup_mem_extendPaths (n s t : ℕ) (p : List ℕ)
    (hwalk : isWalk n s t p) (hnd : p.Nodup) :
    p ∈ extendPaths (List.range n) (fun a b => a != b) t
      ((List.range n).length + 1) [] s := by
  obtain ⟨hh, hl, hc, hmem⟩ := hwalk
  apply extendPaths_complete (List.range n) (fun a b => a != b) t _ p [] s hh hl hc hnd
  · intro x hx
    exact List.mem_range.mpr (hmem x (List.mem_of_mem_tail hx))
  · intro x _
    exact List.not_mem_nil x
  · rw [List.length_range]
    have hsub : p ⊆ List.range n := fun x hx => List.mem_range.mpr (hmem x hx)
    have hle := (List.subperm_of_subset hnd hsub).length_le
    rw [List.length_range] at hle
    omega

theorem extendPaths_isWalk (n s t : ℕ) (hs : s < n) (p : List ℕ)
    (hp : p ∈ extendPaths (List.range n) (fun a b => a != b) t
      ((List.range n).length + 1) [] s) :
    isWalk n s t p ∧ p.Nodup := by
  obtain ⟨hh, hl, hc, hnd, htail⟩ := extendPaths_sound _ _ _ _ _ _ _ hp
  refine ⟨⟨hh, hl, hc, ?_⟩, hnd⟩
  intro x hx
  obtain ⟨q, rfl⟩ : ∃ q, p = s :: q := by
    cases p with
    | nil => simp at hh
    | cons z q => rw [List.head?_cons, Option.some_inj] at hh; exact ⟨q, by rw [hh]⟩
  rcases List.mem_cons.mp hx with rfl | hx'
  · exact hs
  · exact List.mem_range.mp (htail x hx').1

theorem nx_complete_spec (n : ℕ) (w : ℕ → ℕ → α) (s t : ℕ) (hs : s < n)
    (hw : ∀ i j, 0 ≤ w i j) (hex : ∃ p0, isWalk n s t p0 ∧ p0.Nodup) :
    ∃ p, nx_shortest_path (List.range n) (fun a b => a != b) w s t = some p ∧
      isWalk n s t p ∧ p.Nodup ∧
      ∀ q, isWalk n s t q → pathCost w p ≤ pathCost w q := by
  obtain ⟨p0, hp0w, hp0n⟩ := hex
  have hp0 := walk_nodup_mem_extendPaths n s t p0 hp0w hp0n
  have hne := List.ne_nil_of_mem hp0
  obtain ⟨p, hbp⟩ := bestPath_isSome w _ hne
  obtain ⟨hpmem, hpmin⟩ := bestPath_some_spec w _ p hbp
  obtain ⟨hpwalk, hpnd⟩ := extendPaths_isWalk n s t hs p hpmem
  refine ⟨p, ?_, hpwalk, hpnd, ?_⟩
  · unfold nx_shortest_path
    exact hbp
  · intro q hq
    obtain ⟨hh, hl, hc, hmem⟩ := hq
    obtain ⟨q', h1, h2, h3, h4, h5, h6⟩ :=
      exists_nodup_walk w (fun a b => a != b) s t hw q.length q (le_refl _) hh hl hc
    have hq'w : isWalk n s t q' := ⟨h1, h2, h3, fun x hx => hmem x (h5 x hx)⟩
    have hq'mem := walk_nodup_mem_extendPaths n s t q' hq'w h4
    exact le_trans (hpmin q' hq'mem) h6

theorem direct_walk (n : ℕ) (hn : 2 ≤ n) :
    isWalk n 0 (n - 1) [0, n - 1] ∧ ([0, n - 1] : List ℕ).Nodup := by
  have h1 : (0 : ℕ) ≠ n - 1 := by omega
  refine ⟨⟨rfl, ?_, ?_, ?_⟩, ?_⟩
  · rw [List.getLast?_cons_cons, List.getLast?_singleton]
  · rw [List.chain'_pair]
    exact bne_iff_ne.mpr h1
  · intro x hx
    rcases List.mem_cons.mp hx with rfl | hx
    · omega
    · rcases List.mem_cons.mp hx with rfl | hx
      · omega
      · simp at hx
  · simp [h1]

omit [LinearOrderedField α] in
theorem all_points_length (start end_ : α × α) (wps : List (α × α)) :
    (all_points start end_ wps).length = wps.length + 2 := by
  simp [all_points]

theorem find_path_spec (gdist : α × α → α × α → α) (start end_ : α × α)
    (wps : List (α × α)) (path_type : String) (h0 : ∀ a b : α × α, 0 ≤ gdist a b) :
    ∃ r : RouteResult α,
      find_path gdist start end_ wps path_type = Except.ok r ∧
      isWalk (all_points start end_ wps).length 0
        ((all_points start end_ wps).length - 1) r.node_path ∧
      ∀ q, isWalk (all_points start end_ wps).length 0
          ((all_points start end_ wps).length - 1) q →
        pathCost (route_weight (create_route_network gdist (all_points start end_ wps))
            (weight_map_get path_type)) r.node_path ≤
          pathCost (route_weight (create_route_network gdist (all_points start end_ wps))
            (weight_map_get path_type)) q := by
  have hn : 2 ≤ (all_points start end_ wps).length := by
    rw [all_points_length]; omega
  have hw := route_weight_nonneg gdist (all_points start end_ wps)
    (weight_map_get path_type) h0
  obtain ⟨p, hsp, hpw, _, hmin⟩ :=
    nx_complete_spec (all_points start end_ wps).length
      (route_weight (create_route_network gdist (all_points start end_ wps))
        (weight_map_get path_type))
      0 ((all_points start end_ wps).length - 1) (by omega) hw
      ⟨[0, (all_points start end_ wps).length - 1], (direct_walk _ hn).1, (direct_walk _ hn).2⟩
  simp only [find_path]
  rw [hsp]
  exact ⟨_, rfl, hpw, hmin⟩

theorem find_path_ok_node_path (gdist : α × α → α × α → α) (start end_ : α × α)
    (wps : List (α × α)) (path_type : String) (r : RouteResult α)
    (h : find_path gdist start end_ wps path_type = Except.ok r) :
    r.node_path.head? = some 0 ∧
      r.node_path.getLast? = some ((all_points start end_ wps).length - 1) := by
  rw [show find_path gdist start end_ wps path_type =
      (match nx_shortest_path (List.range (all_points start end_ wps).length)
          (fun a b => a != b)
          (route_weight (create_route_network gdist (all_points start end_ wps))
            (weight_map_get path_type))
          0 ((all_points start end_ wps).length - 1) with
        | some node_path =>
          Except.ok
            ⟨node_path.map (fun i => (all_points start end_ wps).getD i (0, 0)),
              ((node_path.zip node_path.tail).map
                (fun q => ((edge_lookup (create_route_network gdist (all_points start end_ wps)) q.1 q.2).map
                    EdgeData.distance).getD 0)).sum,
              ((node_path.zip node_path.tail).map
                (fun q => ((edge_lookup (create_route_network gdist (all_points start end_ wps)) q.1 q.2).map
                    EdgeData.risk).getD 0)).sum /
                ((max 1 (node_path.length - 1) : ℕ) : α),
              wps, path_type, node_path⟩
        | none => Except.error "No valid path found between the specified points")
      from rfl] at h
  cases hsp : nx_shortest_path (List.range (all_points start end_ wps).length)
      (fun a b => a != b)
      (route_weight (create_route_network gdist (all_points start end_ wps))
        (weight_map_get path_type))
      0 ((all_points start end_ wps).length - 1) with
  | none =>
    rw [hsp] at h
    exact absurd h (by simp)
  | some p =>
    rw [hsp] at h
    have hr : r.node_path = p := by
      cases h
      rfl
    unfold nx_shortest_path at hsp
    obtain ⟨hpmem, _⟩ := bestPath_some_spec _ _ p hsp
    obtain ⟨hh, hl, _, _, _⟩ := extendPaths_sound _ _ _ _ _ _ _ hpmem
    rw [hr]
    exact ⟨hh, hl⟩

end CompleteGraphLemmas

/-! ## Symbolic evaluation of `find_path` on a two-point request -/

section TwoPointLemmas

variable {α : Type} [LinearOrderedField α]

theorem find_path_two (gdist : α × α → α × α → α) (start end_ : α × α) (mode : String) :
    find_path gdist start end_ [] mode =
      Except.ok
        ⟨[start, end_],
          (edge_of gdist [start, end_] 0 1).distance + 0,
          ((edge_of gdist [start, end_] 0 1).risk + 0) / ((1 : ℕ) : α),
          [], mode, [0, 1]⟩ := rfl

theorem weight_map_get_unknown (mode : String) (h1 : mode ≠ "fastest")
    (h2 : mode ≠ "safest") (h3 : mode ≠ "recommended") :
    weight_map_get mode = "recommended" := by
  unfold weight_map_get
  rw [if_neg h1, if_neg h2, if_neg h3]

end TwoPointLemmas

/-! ## Counting nodes and edges -/

section CountingLemmas

variable {α : Type} [LinearOrderedField α]

theorem length_filter_range_lt (n i : ℕ) :
    ((List.range n).filter (fun j => decide (i < j))).length = n - (i + 1) := by
  induction n with
  | zero => simp
  | succ n ih =>
    rw [List.range_succ, List.filter_append, List.length_append, ih]
    by_cases h : i < n
    · simp only [List.filter_cons, List.filter_nil, h]
      simp
      omega
    · simp only [List.filter_cons, List.filter_nil, h]
      simp
      omega

theorem list_sum_range_map (f : ℕ → ℕ) :
    ∀ n : ℕ, ((List.range n).map f).sum = ∑ i ∈ Finset.range n, f i := by
  intro n
  induction n with
  | zero => simp
  | succ n ih =>
    rw [List.range_succ, List.map_append, List.sum_append, Finset.sum_range_succ, ih]
    simp

theorem flatMap_pairs_length {β : Type} (f : ℕ → ℕ → β) (n : ℕ) :
    ((List.range n).flatMap (fun i =>
      ((List.range n).filter (fun j => i < j)).map (f i))).length =
      n * (n - 1) / 2 := by
  rw [List.flatMap_def, List.length_flatten, List.map_map]
  have hmap : (List.range n).map
      (List.length ∘ fun i => ((List.range n).filter (fun j => i < j)).map (f i)) =
      (List.range n).map (fun i => n - (i + 1)) := by
    apply List.map_congr_left
    intro i _
    show (((List.range n).filter (fun j => i < j)).map (f i)).length = _
    rw [List.length_map]
    exact length_filter_range_lt n i
  rw [hmap, list_sum_range_map]
  have hrefl : ∑ i ∈ Finset.range n, (n - (i + 1)) = ∑ i ∈ Finset.range n, i := by
    rw [← Finset.sum_range_reflect (fun j => j) n]
    apply Finset.sum_congr rfl
    intro i hi
    rw [Finset.mem_range] at hi
    omega
  rw [hrefl, Finset.sum_range_id]

theorem create_route_network_counts (gdist : α × α → α × α → α) (points : List (α × α)) :
    (create_route_network gdist points).nodes.length = points.length ∧
      (create_route_network gdist points).edges.length =
        points.length * (points.length - 1) / 2 := by
  constructor
  · exact nodes_of_length gdist points
  · exact flatMap_pairs_length (fun i => edge_of gdist points i) points.length

theorem build_graph_counts (ports : List Port) :
    (build_graph ports).nodes.length = ports.length ∧
      (build_graph ports).edges.length = ports.length * (ports.length - 1) / 2 := by
  constructor
  · simp [build_graph]
  · show ((List.range (ports.map (fun p => p.name)).length).flatMap (fun i =>
      ((List.range (ports.map (fun p => p.name)).length).filter (fun j => i < j)).map
        (fun j => _))).length = _
    rw [flatMap_pairs_length (fun i j =>
      ((ports.map (fun p => p.name)).getD i "", (ports.map (fun p => p.name)).getD j "",
        haversine_km
          (nodeCoord (ports.map (fun p => (p.name, p.coord)))
            ((ports.map (fun p => p.name)).getD i ""))
          (nodeCoord (ports.map (fun p => (p.name, p.coord)))
            ((ports.map (fun p => p.name)).getD j ""))))
      (ports.map (fun p => p.name)).length]
    rw [List.length_map]

end CountingLemmas

/-! ## Haversine lemmas -/

section HaversineLemmas

theorem radians_neg (x : ℝ) : radians (-x) = -(radians x) := by
  unfold radians; ring

theorem radians_zero : radians 0 = 0 := by
  unfold radians; ring

theorem atan2_zero_one : atan2 0 1 = 0 := by
  unfold atan2
  rw [if_pos one_pos]
  norm_num

theorem haversine_symm (a b : ℝ × ℝ) : haversine_km a b = haversine_km b a := by
  simp only [haversine_km]
  have e1 : Real.sin (radians (b.1 - a.1) / 2) ^ 2 =
      Real.sin (radians (a.1 - b.1) / 2) ^ 2 := by
    rw [show b.1 - a.1 = -(a.1 - b.1) by ring, radians_neg, neg_div, Real.sin_neg, neg_sq]
  have e2 : Real.sin (radians (b.2 - a.2) / 2) ^ 2 =
      Real.sin (radians (a.2 - b.2) / 2) ^ 2 := by
    rw [show b.2 - a.2 = -(a.2 - b.2) by ring, radians_neg, neg_div, Real.sin_neg, neg_sq]
  have hx : Real.sin (radians (b.1 - a.1) / 2) ^ 2 +
        Real.cos (radians a.1) * Real.cos (radians b.1) *
          Real.sin (radians (b.2 - a.2) / 2) ^ 2 =
      Real.sin (radians (a.1 - b.1) / 2) ^ 2 +
        Real.cos (radians b.1) * Real.cos (radians a.1) *
          Real.sin (radians (a.2 - b.2) / 2) ^ 2 := by
    rw [e1, e2]; ring
  rw [hx]

theorem haversine_self (a : ℝ × ℝ) : haversine_km a a = 0 := by
  simp only [haversine_km, sub_self, radians_zero, zero_div, Real.sin_zero]
  norm_num [atan2_zero_one]

end HaversineLemmas

/-! ## `build_graph` lemmas -/

section BuildGraphLemmas

theorem map_name_getD (ports : List Port) (i : ℕ) (hi : i < ports.length) :
    (ports.map (fun p => p.name)).getD i "" = (ports.getD i dPort).name := by
  rw [List.getD_eq_getElem _ _ (by simpa using hi), List.getD_eq_getElem _ _ hi,
    List.getElem_map]

theorem nodeCoord_of_nodup :
    ∀ (ports : List Port), (ports.map (fun p => p.name)).Nodup →
      ∀ i : ℕ, i < ports.length →
        nodeCoord (ports.map (fun p => (p.name, p.coord)))
            ((ports.map (fun p => p.name)).getD i "") =
          (ports.getD i dPort).coord
  | [], _, i, hi => by simp at hi
  | p :: ports, hnd, 0, _ => by
    simp only [List.map_cons, List.getD_cons_zero, nodeCoord]
    rw [List.find?_cons_of_pos _ (by simp)]
    rfl
  | p :: ports, hnd, i + 1, hi => by
    simp only [List.map_cons, List.getD_cons_succ, nodeCoord]
    simp only [List.map_cons] at hnd
    rw [List.nodup_cons] at hnd
    have hi' : i < ports.length := by simpa using Nat.lt_of_succ_lt_succ hi
    have hmem : (ports.map (fun p => p.name)).getD i "" ∈ ports.map (fun p => p.name) := by
      rw [List.getD_eq_getElem _ _ (by simpa using hi')]
      exact List.getElem_mem _
    have hne : ¬((fun q : String × (ℝ × ℝ) =>
        q.1 == (ports.map (fun p => p.name)).getD i "") (p.name, p.coord) = true) := by
      simp only [beq_iff_eq]
      intro he
      exact hnd.1 (he ▸ hmem)
    rw [@List.find?_cons_of_neg _
      (fun q : String × (ℝ × ℝ) => q.1 == (ports.map (fun p => p.name)).getD i "")
      (p.name, p.coord) (ports.map (fun p => (p.name, p.coord))) hne]
    exact nodeCoord_of_nodup ports hnd.2 i hi'

theorem mem_build_graph_edges_iff (ports : List Port) (e : String × String × ℝ) :
    e ∈ (build_graph ports).edges ↔
      ∃ i j : ℕ, i < ports.length ∧ j < ports.length ∧ i < j ∧
        e = ((ports.map (fun p => p.name)).getD i "",
          (ports.map (fun p => p.name)).getD j "",
          haversine_km
            (nodeCoord (ports.map (fun p => (p.name, p.coord)))
              ((ports.map (fun p => p.name)).getD i ""))
            (nodeCoord (ports.map (fun p => (p.name, p.coord)))
              ((ports.map (fun p => p.name)).getD j ""))) := by
  simp only [build_graph, List.mem_flatMap, List.mem_map, List.mem_filter, List.mem_range,
    List.length_map, decide_eq_true_eq]
  constructor
  · rintro ⟨i, hi, j, ⟨hj, hij⟩, rfl⟩
    exact ⟨i, j, hi, hj, hij, rfl⟩
  · rintro ⟨i, j, hi, hj, hij, rfl⟩
    exact ⟨i, hi, j, ⟨hj, hij⟩, rfl⟩

end BuildGraphLemmas

/-! ## Endpoint lemmas -/

section EndpointLemmas

variable {α : Type} [LinearOrderedField α]

theorem all_points_getD_zero (start end_ : α × α) (wps : List (α × α)) :
    (all_points start end_ wps).getD 0 (0, 0) = start := rfl

theorem all_points_getD_last (start end_ : α × α) (wps : List (α × α)) :
    (all_points start end_ wps).getD (wps.length + 1) (0, 0) = end_ := by
  show (((start :: wps) : List (α × α)) ++ [end_]).getD (wps.length + 1) (0, 0) = end_
  rw [List.getD_append_right _ _ _ _ (by simp)]
  simp

end EndpointLemmas

/-! ## Claims -/

section Claims

variable {α : Type} [LinearOrderedField α]

/-- C1 (counterexample): `find_path` with the unknown cost mode `"banana"`
does not fail with an error: it succeeds and returns the path `[0, 1]`, so
the claim that unknown modes fail with an `InvalidArgument` error is false
on the code. -/
theorem c1_unknown_mode_counterexample :
    (find_path qdist ((0 : ℚ), 0) (10, 10) [] "banana").isOk = true ∧
      nodePathOf (find_path qdist ((0 : ℚ), 0) (10, 10) [] "banana") = [0, 1] := by
  rw [find_path_two qdist ((0 : ℚ), 0) (10, 10) "banana"]
  exact ⟨rfl, rfl⟩

/-- C1 (amended): `find_path` with a cost mode outside
`{fastest, safest, recommended}` does not fail; it silently falls back to
the `recommended` cost field, returning exactly the result of the
`recommended` search with only the echoed `path_type` field different. -/
theorem c1_unknown_mode_defaults (gdist : α × α → α × α → α) (start end_ : α × α)
    (wps : List (α × α)) (path_type : String) (h1 : path_type ≠ "fastest")
    (h2 : path_type ≠ "safest") (h3 : path_type ≠ "recommended") :
    find_path gdist start end_ wps path_type =
      Except.map (fun r : RouteResult α =>
          ⟨r.path, r.distance_km, r.average_risk, r.waypoints, path_type, r.node_path⟩)
        (find_path gdist start end_ wps "recommended") := by
  simp only [find_path]
  rw [weight_map_get_unknown path_type h1 h2 h3]
  rw [show weight_map_get "recommended" = "recommended" from rfl]
  cases hsp : nx_shortest_path (List.range (all_points start end_ wps).length)
      (fun a b => a != b)
      (route_weight (create_route_network gdist (all_points start end_ wps)) "recommended")
      0 ((all_points start end_ wps).length - 1) with
  | none => rfl
  | some p => rfl

/-- C1 (witness for the amended claim): the mode `"banana"` on a concrete
two-point request. -/
theorem c1_unknown_mode_defaults_witness :
    find_path qdist ((0 : ℚ), 0) (10, 10) [] "banana" =
      Except.map (fun r : RouteResult ℚ =>
          ⟨r.path, r.distance_km, r.average_risk, r.waypoints, "banana", r.node_path⟩)
        (find_path qdist ((0 : ℚ), 0) (10, 10) [] "recommended") :=
  c1_unknown_mode_defaults qdist ((0 : ℚ), 0) (10, 10) [] "banana"
    (by decide) (by decide) (by decide)

/-- C2: for every list of points, the graph built by `create_route_network`
has exactly `n` nodes and `n·(n-1)/2` edges; in particular this holds for
every valid input of `n ≥ 2` points.  The same counts hold for the
name-keyed `build_graph` of `graph.py` whenever the port names are
distinct — the condition under which the list model coincides with
networkx's keyed node/edge store (with a duplicate name, `add_node`
updates the existing node instead of adding one). -/
theorem c2_graph_node_edge_count (gdist : α × α → α × α → α) (points : List (α × α))
    (ports : List Port) (_hports : (ports.map (fun p => p.name)).Nodup) :
    (create_route_network gdist points).nodes.length = points.length ∧
      (create_route_network gdist points).edges.length =
        points.length * (points.length - 1) / 2 ∧
      (build_graph ports).nodes.length = ports.length ∧
      (build_graph ports).edges.length = ports.length * (ports.length - 1) / 2 :=
  ⟨(create_route_network_counts gdist points).1,
    (create_route_network_counts gdist points).2,
    (build_graph_counts ports).1, (build_graph_counts ports).2⟩

/-- C2 (witness): a concrete two-point mesh and a concrete two-port graph
with distinct names. -/
theorem c2_graph_node_edge_count_witness :
    (create_route_network qdist [((0 : ℚ), 0), (10, 10)]).nodes.length =
        ([((0 : ℚ), 0), (10, 10)] : List (ℚ × ℚ)).length ∧
      (create_route_network qdist [((0 : ℚ), 0), (10, 10)]).edges.length =
        ([((0 : ℚ), 0), (10, 10)] : List (ℚ × ℚ)).length *
          (([((0 : ℚ), 0), (10, 10)] : List (ℚ × ℚ)).length - 1) / 2 ∧
      (build_graph [⟨"A", ((0 : ℝ), 0)⟩, ⟨"B", ((10 : ℝ), 10)⟩]).nodes.length =
        ([⟨"A", ((0 : ℝ), 0)⟩, ⟨"B", ((10 : ℝ), 10)⟩] : List Port).length ∧
      (build_graph [⟨"A", ((0 : ℝ), 0)⟩, ⟨"B", ((10 : ℝ), 10)⟩]).edges.length =
        ([⟨"A", ((0 : ℝ), 0)⟩, ⟨"B", ((10 : ℝ), 10)⟩] : List Port).length *
          (([⟨"A", ((0 : ℝ), 0)⟩, ⟨"B", ((10 : ℝ), 10)⟩] : List Port).length - 1) / 2 :=
  c2_graph_node_edge_count qdist [((0 : ℚ), 0), (10, 10)]
    [⟨"A", ((0 : ℝ), 0)⟩, ⟨"B", ((10 : ℝ), 10)⟩] (by decide)

/-- C3: the node risk computed by `calculate_risk` equals the maximum over
all risk zones of `risk_level × (1 − (distance/radius)²)` over zones whose
center is at distance strictly less than the radius (zero when inside no
zone), clamped to `[0, 1]`; consequently the risk always lies in `[0, 1]`,
a zone contributes nothing at or beyond its radius, and a point exactly at
a zone center whose contribution dominates gets that zone's risk level. -/
theorem c3_risk_formula (gdist : α × α → α × α → α) (p : α × α) (z : RiskZone α)
    (hz : z ∈ (risk_zones : List (RiskZone α))) :
    calculate_risk gdist p = specNodeRisk gdist p ∧
      0 ≤ calculate_risk gdist p ∧ calculate_risk gdist p ≤ 1 ∧
      (z.radius ≤ gdist p z.center → zoneContribution gdist p z = 0) ∧
      (gdist p z.center = 0 → 0 < z.radius → 0 ≤ z.risk_level → z.risk_level ≤ 1 →
        (∀ z' ∈ (risk_zones : List (RiskZone α)), zoneContribution gdist p z' ≤ z.risk_level) →
        calculate_risk gdist p = z.risk_level) := by
  refine ⟨calculate_risk_eq_spec gdist p, calculate_risk_nonneg gdist p,
    calculate_risk_le_one gdist p, ?_, ?_⟩
  · intro hfar
    unfold zoneContribution
    rw [if_neg (not_lt.mpr hfar)]
  · intro hcen hrad hl0 hl1 hdom
    have hcontrib : zoneContribution gdist p z = z.risk_level := by
      unfold zoneContribution
      rw [hcen, if_pos hrad]
      rw [zero_div, zero_pow (by norm_num), sub_zero, mul_one]
    have hub := foldr_max_le (zoneContribution gdist p) z.risk_level hl0 risk_zones hdom
    have hlb := le_foldr_max (zoneContribution gdist p) risk_zones z hz
    rw [hcontrib] at hlb
    have hR : (risk_zones.map (zoneContribution gdist p)).foldr max 0 = z.risk_level :=
      le_antisymm hub hlb
    rw [calculate_risk_eq_spec]
    unfold specNodeRisk
    rw [hR, max_eq_right hl0, min_eq_right hl1]

/-- C3 (witness): with the concrete distance `qdist`, the point exactly at
the center `(20, -40)` of the first risk zone gets that zone's risk level
`0.8`. -/
theorem c3_risk_formula_witness : calculate_risk qdist ((20 : ℚ), -40) = 4 / 5 := by
  have h := c3_risk_formula qdist ((20 : ℚ), -40) ⟨((20 : ℚ), -40), 500, 4 / 5⟩
    (List.mem_cons_self _ _)
  refine h.2.2.2.2 (by norm_num [qdist]) (by norm_num) (by norm_num) (by norm_num) ?_
  intro z' hz'
  simp only [risk_zones, List.mem_cons, List.not_mem_nil, or_false] at hz'
  rcases hz' with rfl | rfl | rfl
  · norm_num [zoneContribution, qdist]
  · norm_num [zoneContribution, qdist]
  · norm_num [zoneContribution, qdist]

/-- C4: every edge of a built graph has risk equal to the mean of its two
endpoint node risks, nonnegative risk, `fastest = distance`,
`safest = distance × (1 + risk × 5)`, `recommended = distance × (1 + risk)`,
and, when the injected distance is nonnegative,
`fastest ≤ recommended ≤ safest`. -/
theorem c4_edge_cost_order (gdist : α × α → α × α → α) (points : List (α × α))
    (h0 : ∀ a b : α × α, 0 ≤ gdist a b) (e : EdgeData α)
    (he : e ∈ (create_route_network gdist points).edges) :
    e.risk = (((create_route_network gdist points).nodes.getD e.i dNode).risk +
        ((create_route_network gdist points).nodes.getD e.j dNode).risk) / 2 ∧
      0 ≤ e.risk ∧
      e.fastest = e.distance ∧
      e.safest = e.distance * (1 + e.risk * 5) ∧
      e.recommended = e.distance * (1 + e.risk) ∧
      e.fastest ≤ e.recommended ∧ e.recommended ≤ e.safest := by
  rw [mem_edges_iff] at he
  obtain ⟨a, b, ha, hb, hab, rfl⟩ := he
  obtain ⟨hi, hj, hdist, hrisk, hfast, hsafe, hrec⟩ := edge_of_fields gdist points a b
  have hr : 0 ≤ (edge_of gdist points a b).risk := edge_of_risk_nonneg gdist points a b
  have hd : 0 ≤ (edge_of gdist points a b).distance := by rw [hdist]; exact h0 _ _
  refine ⟨?_, hr, hfast, hsafe, hrec, ?_, ?_⟩
  · rw [hrisk, hi, hj]
    rfl
  · rw [hfast, hrec]
    exact le_mul_of_one_le_right hd (by linarith)
  · rw [hrec, hsafe]
    exact mul_le_mul_of_nonneg_left (by linarith) hd

/-- C4 (witness): the single edge of a concrete two-point graph. -/
theorem c4_edge_cost_order_witness :
    (edge_of qdist [((0 : ℚ), 0), (10, 10)] 0 1).risk =
        (((create_route_network qdist [((0 : ℚ), 0), (10, 10)]).nodes.getD
            (edge_of qdist [((0 : ℚ), 0), (10, 10)] 0 1).i dNode).risk +
          ((create_route_network qdist [((0 : ℚ), 0), (10, 10)]).nodes.getD
            (edge_of qdist [((0 : ℚ), 0), (10, 10)] 0 1).j dNode).risk) / 2 ∧
      0 ≤ (edge_of qdist [((0 : ℚ), 0), (10, 10)] 0 1).risk ∧
      (edge_of qdist [((0 : ℚ), 0), (10, 10)] 0 1).fastest =
        (edge_of qdist [((0 : ℚ), 0), (10, 10)] 0 1).distance ∧
      (edge_of qdist [((0 : ℚ), 0), (10, 10)] 0 1).safest =
        (edge_of qdist [((0 : ℚ), 0), (10, 10)] 0 1).distance *
          (1 + (edge_of qdist [((0 : ℚ), 0), (10, 10)] 0 1).risk * 5) ∧
      (edge_of qdist [((0 : ℚ), 0), (10, 10)] 0 1).recommended =
        (edge_of qdist [((0 : ℚ), 0), (10, 10)] 0 1).distance *
          (1 + (edge_of qdist [((0 : ℚ), 0), (10, 10)] 0 1).risk) ∧
      (edge_of qdist [((0 : ℚ), 0), (10, 10)] 0 1).fastest ≤
        (edge_of qdist [((0 : ℚ), 0), (10, 10)] 0 1).recommended ∧
      (edge_of qdist [((0 : ℚ), 0), (10, 10)] 0 1).recommended ≤
        (edge_of qdist [((0 : ℚ), 0), (10, 10)] 0 1).safest :=
  c4_edge_cost_order qdist [((0 : ℚ), 0), (10, 10)] (fun a b => by simp only [qdist]; positivity)
    (edge_of qdist [((0 : ℚ), 0), (10, 10)] 0 1)
    ((mem_edges_iff qdist [((0 : ℚ), 0), (10, 10)] _).mpr
      ⟨0, 1, by norm_num, by norm_num, by norm_num, rfl⟩)

/-- C5: with a nonnegative injected distance and a valid cost mode,
`find_path` always succeeds (the `NoPathFound` branch is unreachable), and
the returned node path is a walk from node `0` to node `n-1` whose total
cost under the selected edge-cost field is minimal among all such walks in
the complete graph. -/
theorem c5_find_path_optimal (gdist : α × α → α × α → α) (start end_ : α × α)
    (wps : List (α × α)) (path_type : String)
    (_hmode : path_type = "fastest" ∨ path_type = "safest" ∨ path_type = "recommended")
    (h0 : ∀ a b : α × α, 0 ≤ gdist a b) :
    (find_path gdist start end_ wps path_type).isOk = true ∧
      isWalk (all_points start end_ wps).length 0 ((all_points start end_ wps).length - 1)
        (nodePathOf (find_path gdist start end_ wps path_type)) ∧
      ∀ q, isWalk (all_points start end_ wps).length 0
          ((all_points start end_ wps).length - 1) q →
        pathCost (route_weight (create_route_network gdist (all_points start end_ wps))
            (weight_map_get path_type))
          (nodePathOf (find_path gdist start end_ wps path_type)) ≤
        pathCost (route_weight (create_route_network gdist (all_points start end_ wps))
            (weight_map_get path_type)) q := by
  obtain ⟨r, hr, hw, hmin⟩ := find_path_spec gdist start end_ wps path_type h0
  rw [hr]
  exact ⟨rfl, hw, hmin⟩

/-- C5 (witness): the concrete two-point request, compared against the
direct walk `[0, 1]`. -/
theorem c5_find_path_optimal_witness :
    (find_path qdist ((0 : ℚ), 0) (10, 10) [] "fastest").isOk = true ∧
      pathCost (route_weight (create_route_network qdist (all_points ((0 : ℚ), 0) (10, 10) []))
          (weight_map_get "fastest"))
        (nodePathOf (find_path qdist ((0 : ℚ), 0) (10, 10) [] "fastest")) ≤
      pathCost (route_weight (create_route_network qdist (all_points ((0 : ℚ), 0) (10, 10) []))
          (weight_map_get "fastest")) [0, 1] := by
  obtain ⟨h1, _, h3⟩ := c5_find_path_optimal qdist ((0 : ℚ), 0) (10, 10) [] "fastest"
    (Or.inl rfl) (fun a b => by simp only [qdist]; positivity)
  exact ⟨h1, h3 [0, 1] ⟨rfl, rfl, List.chain'_pair.mpr rfl, by decide⟩⟩

/-- C6: in the graph built by `build_graph` from ports with distinct names,
for every pair `i < j` there is an edge between the `i`-th and `j`-th port
names, its stored distance is the haversine distance of the two port
coordinates, and every edge between those two names carries exactly that
distance. -/
theorem c6_edge_distance_haversine (ports : List Port)
    (h : (ports.map (fun p => p.name)).Nodup) (i j : ℕ) (hij : i < j)
    (hj : j < ports.length) :
    ((ports.getD i dPort).name, (ports.getD j dPort).name,
        haversine_km (ports.getD i dPort).coord (ports.getD j dPort).coord) ∈
      (build_graph ports).edges ∧
      ∀ d : ℝ, ((ports.getD i dPort).name, (ports.getD j dPort).name, d) ∈
          (build_graph ports).edges →
        d = haversine_km (ports.getD i dPort).coord (ports.getD j dPort).coord := by
  have hi : i < ports.length := lt_trans hij hj
  constructor
  · rw [mem_build_graph_edges_iff]
    refine ⟨i, j, hi, hj, hij, ?_⟩
    rw [nodeCoord_of_nodup ports h i hi, nodeCoord_of_nodup ports h j hj,
      map_name_getD ports i hi, map_name_getD ports j hj]
  · intro d hd
    rw [mem_build_graph_edges_iff] at hd
    obtain ⟨a, b, ha2, hb2, hab2, heq⟩ := hd
    rw [nodeCoord_of_nodup ports h a ha2, nodeCoord_of_nodup ports h b hb2,
      map_name_getD ports a ha2, map_name_getD ports b hb2] at heq
    simp only [Prod.mk.injEq] at heq
    obtain ⟨hname1, hname2, hdval⟩ := heq
    have hia : i = a := by
      have h1 : (ports.map (fun p => p.name)).getD i "" =
          (ports.map (fun p => p.name)).getD a "" := by
        rw [map_name_getD ports i hi, map_name_getD ports a ha2, hname1]
      rw [List.getD_eq_getElem _ _ (by simpa using hi),
        List.getD_eq_getElem _ _ (by simpa using ha2)] at h1
      exact (List.Nodup.getElem_inj_iff h).mp h1
    have hjb : j = b := by
      have h1 : (ports.map (fun p => p.name)).getD j "" =
          (ports.map (fun p => p.name)).getD b "" := by
        rw [map_name_getD ports j hj, map_name_getD ports b hb2, hname2]
      rw [List.getD_eq_getElem _ _ (by simpa using hj),
        List.getD_eq_getElem _ _ (by simpa using hb2)] at h1
      exact (List.Nodup.getElem_inj_iff h).mp h1
    rw [hdval, hia, hjb]

/-- C6 (witness): the edge of a concrete two-port graph. -/
theorem c6_edge_distance_haversine_witness :
    (("A", "B", haversine_km ((0 : ℝ), 0) (10, 10)) : String × String × ℝ) ∈
      (build_graph [⟨"A", ((0 : ℝ), 0)⟩, ⟨"B", ((10 : ℝ), 10)⟩]).edges :=
  (c6_edge_distance_haversine [⟨"A", ((0 : ℝ), 0)⟩, ⟨"B", ((10 : ℝ), 10)⟩]
    (by decide) 0 1 (by norm_num) (by norm_num)).1

/-- C7: on the request `start = (0,0)`, `end = (10,10)`, no waypoints,
`find_path` with mode `fastest` and the haversine distance returns the
two-element path `[start, end]` with total distance equal to the haversine
distance between them. -/
theorem c7_direct_fastest_path :
    ∃ r : RouteResult ℝ,
      find_path haversine_km ((0 : ℝ), 0) (10, 10) [] "fastest" = Except.ok r ∧
        r.path = [((0 : ℝ), 0), (10, 10)] ∧
        r.distance_km = haversine_km ((0 : ℝ), 0) (10, 10) := by
  refine ⟨_, find_path_two haversine_km ((0 : ℝ), 0) (10, 10) "fastest", rfl, ?_⟩
  show (edge_of haversine_km [((0 : ℝ), 0), (10, 10)] 0 1).distance + 0 = _
  rw [add_zero]
  rfl

/-- C8: node `0` of the built graph carries the start coordinate, node
`n-1` carries the end coordinate, and every successful `find_path` result
has a node path running from `0` to `n-1`. -/
theorem c8_endpoints (gdist : α × α → α × α → α) (start end_ : α × α)
    (wps : List (α × α)) (path_type : String) :
    ((create_route_network gdist (all_points start end_ wps)).nodes.getD 0 dNode).lat =
        start.1 ∧
      ((create_route_network gdist (all_points start end_ wps)).nodes.getD 0 dNode).lon =
        start.2 ∧
      ((create_route_network gdist (all_points start end_ wps)).nodes.getD
          ((all_points start end_ wps).length - 1) dNode).lat = end_.1 ∧
      ((create_route_network gdist (all_points start end_ wps)).nodes.getD
          ((all_points start end_ wps).length - 1) dNode).lon = end_.2 ∧
      ∀ r : RouteResult α, find_path gdist start end_ wps path_type = Except.ok r →
        r.node_path.head? = some 0 ∧
          r.node_path.getLast? = some ((all_points start end_ wps).length - 1) := by
  have hlen := all_points_length start end_ wps
  have h0lt : 0 < (all_points start end_ wps).length := by omega
  have hlast : (all_points start end_ wps).length - 1 = wps.length + 1 := by omega
  have hlt : wps.length + 1 < (all_points start end_ wps).length := by omega
  refine ⟨?_, ?_, ?_, ?_, fun r => find_path_ok_node_path gdist start end_ wps path_type r⟩
  · show ((nodes_of gdist (all_points start end_ wps)).getD 0 dNode).lat = start.1
    rw [nodes_of_getD gdist _ 0 h0lt, all_points_getD_zero]
    rfl
  · show ((nodes_of gdist (all_points start end_ wps)).getD 0 dNode).lon = start.2
    rw [nodes_of_getD gdist _ 0 h0lt, all_points_getD_zero]
    rfl
  · show ((nodes_of gdist (all_points start end_ wps)).getD
        ((all_points start end_ wps).length - 1) dNode).lat = end_.1
    rw [hlast, nodes_of_getD gdist _ _ hlt, all_points_getD_last]
    rfl
  · show ((nodes_of gdist (all_points start end_ wps)).getD
        ((all_points start end_ wps).length - 1) dNode).lon = end_.2
    rw [hlast, nodes_of_getD gdist _ _ hlt, all_points_getD_last]
    rfl

/-- C8 (witness): the concrete two-point request, with the explicit result
record returned by `find_path`. -/
theorem c8_endpoints_witness :
    (⟨[((0 : ℚ), 0), (10, 10)],
        (edge_of qdist [((0 : ℚ), 0), (10, 10)] 0 1).distance + 0,
        ((edge_of qdist [((0 : ℚ), 0), (10, 10)] 0 1).risk + 0) / ((1 : ℕ) : ℚ),
        [], "fastest", [0, 1]⟩ : RouteResult ℚ).node_path.head? = some 0 ∧
      (⟨[((0 : ℚ), 0), (10, 10)],
        (edge_of qdist [((0 : ℚ), 0), (10, 10)] 0 1).distance + 0,
        ((edge_of qdist [((0 : ℚ), 0), (10, 10)] 0 1).risk + 0) / ((1 : ℕ) : ℚ),
        [], "fastest", [0, 1]⟩ : RouteResult ℚ).node_path.getLast? =
        some ((all_points ((0 : ℚ), 0) (10, 10) []).length - 1) :=
  (c8_endpoints qdist ((0 : ℚ), 0) (10, 10) [] "fastest").2.2.2.2 _
    (find_path_two qdist ((0 : ℚ), 0) (10, 10) "fastest")

/-- C9: the haversine distance is symmetric and vanishes on equal
coordinates. -/
theorem c9_haversine_symm_self :
    (∀ a b : ℝ × ℝ, haversine_km a b = haversine_km b a) ∧
      ∀ a : ℝ × ℝ, haversine_km a a = 0 :=
  ⟨haversine_symm, haversine_self⟩

/-- C10: `safest_path` and `recommended_path` (and `fastest_path`) return
the caller's graph unchanged — they annotate and search only the copy — and
the annotated copy differs from the argument only in the added cost key:
its node list and every edge's endpoints and `distance` attribute are
preserved. -/
theorem c10_no_mutation (graph : Graph2 α) (start end_ : String)
    (risk_func : String → String → EdgeAttrs α → α) (alpha : α) :
    (safest_path graph start end_ risk_func).2 = graph ∧
      (recommended_path graph start end_ risk_func alpha).2 = graph ∧
      (fastest_path graph start end_).2 = graph ∧
      (annotate_safest graph risk_func).nodes = graph.nodes ∧
      (annotate_safest graph risk_func).edges.map (fun e => (e.1, e.2.1, e.2.2.distance)) =
        graph.edges.map (fun e => (e.1, e.2.1, e.2.2.distance)) ∧
      (annotate_recommended graph risk_func alpha).nodes = graph.nodes ∧
      (annotate_recommended graph risk_func alpha).edges.map
          (fun e => (e.1, e.2.1, e.2.2.distance)) =
        graph.edges.map (fun e => (e.1, e.2.1, e.2.2.distance)) := by
  refine ⟨rfl, rfl, rfl, rfl, ?_, rfl, ?_⟩
  · show (graph.edges.map _).map _ = _
    rw [List.map_map]
    exact List.map_congr_left (fun e _ => rfl)
  · show (graph.edges.map _).map _ = _
    rw [List.map_map]
    exact List.map_congr_left (fun e _ => rfl)

end Claims

end MaritimeWeather
